import Mathlib

/-!
Verification of the mortgage amortization engine (`modules/calculations.py`,
`modules/monte_carlo.py`, `modules/mixed_mortgage.py`, `modules/comparison.py`).

Numbers are modelled by `ℚ` (the Python code computes with floats; the claims
are about the real-arithmetic behaviour of the formulas, so we use exact
rational arithmetic, with `ℝ` only where the source is genuinely
transcendental: `math.log`, `np.sqrt`).  Python exceptions (`ValueError`,
`IndexError`) are modelled by `Except Err`.  Calls to `np.random.*` are
modelled by an explicit oracle of draws (`ℕ → ℚ`): each entry is the value
returned by one call of the sampler, so a theorem quantified over all oracles
covers every possible realization of the random process.
-/

namespace Mortgages

/-- Errors raised by the engine (`raise ValueError(...)` / `IndexError`). -/
inductive Err where
  /-- "El plazo debe ser mayor a 0 meses" / "El plazo inicial debe ser positivo". -/
  | plazoNoPositivo : Err
  /-- "El capital inicial debe ser positivo". -/
  | capitalNoPositivo : Err
  /-- "La cuota inicial debe ser positiva". -/
  | cuotaNoPositiva : Err
  /-- "La cuota no cubre los intereses mínimos" (PaymentTooLow). -/
  | cuotaNoCubreIntereses : Err
  /-- "Inyección en el mes ... supera el capital pendiente." -/
  | inyeccionSuperaCapital : Err
  /-- Python `IndexError` from `euribor_scenario[0]` on an empty list. -/
  | indexError : Err
deriving DecidableEq, Repr

/-- Re-amortization policy of an injection: `'cuota'` (reduce payment) or
`'plazo'` (reduce term). -/
inductive Policy where
  | cuota : Policy
  | plazo : Policy
deriving DecidableEq, Repr

/-- One capital injection: the dicts
`{'mes_inyeccion': m, 'capital_inyectado': a, 'tipo_inyeccion': t}`.
`tipo = none` models a `None`/absent reduction type. -/
structure Inyeccion where
  mes : ℕ
  capital : ℚ
  tipo : Option Policy
deriving DecidableEq, Repr

/-- Decidable equality of `Except` results, so that concrete runs of the
engine can be checked by `decide`. -/
instance instDecEqExcept {ε α : Type} [DecidableEq ε] [DecidableEq α] :
    DecidableEq (Except ε α) := fun x y =>
  match x, y with
  | .ok a, .ok b =>
    if h : a = b then .isTrue (by rw [h])
    else .isFalse (fun hh => h (Except.ok.inj hh))
  | .error a, .error b =>
    if h : a = b then .isTrue (by rw [h])
    else .isFalse (fun hh => h (Except.error.inj hh))
  | .ok _, .error _ => .isFalse (fun hh => Except.noConfusion hh)
  | .error _, .ok _ => .isFalse (fun hh => Except.noConfusion hh)

/-- Value of the annuity formula `capital·i / (1 - (1+i)^(-plazo))` with
monthly rate `i = tasa/1200`, as in the positive branch of `cuota_mensual`. -/
def cuotaVal (capital tasa : ℚ) (plazo : ℤ) : ℚ :=
  (capital * (tasa / 1200)) / (1 - (1 + tasa / 1200) ^ (-plazo))

/-- `cuota_mensual(capital, tasa, plazo)` from `modules/calculations.py`:
raises if `plazo <= 0`, returns 0 if `capital <= 0`, otherwise the annuity
formula. -/
def cuota_mensual (capital tasa : ℚ) (plazo : ℤ) : Except Err ℚ :=
  if plazo ≤ 0 then .error .plazoNoPositivo
  else if capital ≤ 0 then .ok 0
  else .ok (cuotaVal capital tasa plazo)

/-- `intereses_mensuales(capital_pendiente, tasa)` from
`modules/calculations.py`: `capital_pendiente * tasa/1200`. -/
def intereses_mensuales (capital_pendiente tasa : ℚ) : ℚ :=
  capital_pendiente * (tasa / 1200)

/-- The real-valued expression
`-log(1 - capital·i/cuota) / log(1 + i)` computed by `calcular_plazo`
before `ceil`. -/
noncomputable def plazoLogValor (capital tasa cuota : ℚ) : ℝ :=
  -Real.log (1 - (capital : ℝ) * ((tasa : ℝ) / 1200) / (cuota : ℝ)) /
    Real.log (1 + (tasa : ℝ) / 1200)

/-- `calcular_plazo(capital, tasa, cuota)` from `modules/calculations.py`:
returns 0 for `capital <= 0`; raises when the payment does not cover the
monthly interest; otherwise `max(ceil(-log(1 - c·i/q)/log(1+i)), 1)`. -/
noncomputable def calcular_plazo (capital tasa cuota : ℚ) : Except Err ℤ :=
  if capital ≤ 0 then .ok 0
  else if cuota ≤ capital * (tasa / 1200) then .error .cuotaNoCubreIntereses
  else .ok (max ⌈plazoLogValor capital tasa cuota⌉ 1)

/-- One row appended by `simulacion_hipoteca_simple`: the dict
`{'Mes', 'Capital_pendiente', 'Cuota_mensual', 'Intereses_mensuales',
'Amortizacion_mensual'}`. -/
structure RegistroSimple where
  mes : ℕ
  capital : ℚ
  cuota : ℚ
  intereses : ℚ
  amortizacion : ℚ
deriving DecidableEq, Repr

/-- The `for mes in range(1, plazo_inicial + 1)` loop of
`simulacion_hipoteca_simple`: `fuel` is the number of remaining iterations,
`mes` the current month, `cap` the pending principal. -/
def simpleLoop (tasa cuota : ℚ) : ℕ → ℕ → ℚ → List RegistroSimple
  | 0, _, _ => []
  | fuel + 1, mes, cap =>
    if cap ≤ 0 then []
    else
      let interes := intereses_mensuales cap tasa
      let amortizacion := min (cuota - interes) cap
      ⟨mes, cap, cuota, interes, amortizacion⟩ ::
        simpleLoop tasa cuota fuel (mes + 1) (cap - amortizacion)

/-- `simulacion_hipoteca_simple(capital_inicial, tasa, plazo_inicial,
cuota_inicial)` from `modules/calculations.py`. -/
def simulacion_hipoteca_simple (capital tasa : ℚ) (plazo : ℤ) (cuota : ℚ) :
    Except Err (List RegistroSimple) :=
  if capital ≤ 0 then .error .capitalNoPositivo
  else if plazo ≤ 0 then .error .plazoNoPositivo
  else if cuota ≤ 0 then .error .cuotaNoPositiva
  else .ok (simpleLoop tasa cuota plazo.toNat 1 capital)

/-- The injection-lookup loop shared by all three recurrences
(`for inyeccion in inyecciones: if inyeccion['mes_inyeccion'] == mes_actual:
inyeccion_mes = ...; tipo_inyeccion_mes = ...`): starts from `(0, None)` and
each matching entry overwrites the accumulator. -/
def buscar_inyeccion (inyecciones : List Inyeccion) (mes : ℕ) : ℚ × Option Policy :=
  inyecciones.foldl
    (fun acc iny => if iny.mes = mes then (iny.capital, iny.tipo) else acc)
    (0, none)

/-- The Python idiom `tipo_inyeccion_mes if tipo_inyeccion_mes else
opcion_reduccion_actual`. -/
def tipoOActual (tipoMes opcion : Option Policy) : Option Policy :=
  match tipoMes with
  | some p => some p
  | none => opcion

/-- One row appended by `simulacion_hipoteca_multiple_inyeccion`. -/
structure RegistroIny where
  mes : ℕ
  capital : ℚ
  cuota : ℚ
  intereses : ℚ
  amortizacion : ℚ
  inyeccion : ℚ
  tipoReduccion : Option Policy
deriving DecidableEq, Repr

/-- The month loop of `simulacion_hipoteca_multiple_inyeccion`
(`modules/calculations.py`).  `fuel` counts the remaining iterations of
`for mes in range(1, plazo_inicial + 1)` (Python evaluates the `range` once,
so later mutation of `plazo_inicial` does not change the iteration count);
`plazoIni` is the mutable `plazo_inicial` variable read by the
reduce-payment branch. -/
noncomputable def miLoop (tasa : ℚ) (inys : List Inyeccion) :
    ℕ → ℕ → ℚ → ℚ → ℤ → Option Policy → Except Err (List RegistroIny)
  | 0, _, _, _, _, _ => .ok []
  | fuel + 1, mes, cap, cuota, plazoIni, opcion => do
    let busca := buscar_inyeccion inys mes
    let inyMes := busca.1
    let tipoMes := busca.2
    let cap1E : Except Err ℚ :=
      if 0 < inyMes then
        if cap < inyMes then Except.error Err.inyeccionSuperaCapital
        else Except.ok (cap - inyMes)
      else Except.ok cap
    let cap1 ← cap1E
    if cap1 ≤ 0 then
      Except.ok [⟨mes, 0, 0, 0, 0, inyMes, tipoOActual tipoMes opcion⟩]
    else
      let interes := intereses_mensuales cap1 tasa
      let amort := min (cuota - interes) cap1
      let reg : RegistroIny :=
        ⟨mes, cap1, cuota, interes, amort, inyMes, tipoOActual tipoMes opcion⟩
      let cap2 := cap1 - amort
      if (0 < inyMes ∨ tipoMes.isSome) ∧ 0 < cap2 then
        let opcion1 := tipoOActual tipoMes opcion
        match opcion1 with
        | some .cuota => do
          let cuota1 ← cuota_mensual cap2 tasa (max (plazoIni - mes) 1)
          let rest ← miLoop tasa inys fuel (mes + 1) cap2 cuota1 plazoIni opcion1
          pure (reg :: rest)
        | some .plazo => do
          let plazoR ← calcular_plazo cap2 tasa cuota
          let rest ← miLoop tasa inys fuel (mes + 1) cap2 cuota
            ((mes : ℤ) + plazoR) opcion1
          pure (reg :: rest)
        | none => do
          let rest ← miLoop tasa inys fuel (mes + 1) cap2 cuota plazoIni opcion1
          pure (reg :: rest)
      else do
        let rest ← miLoop tasa inys fuel (mes + 1) cap2 cuota plazoIni opcion
        pure (reg :: rest)

/-- `simulacion_hipoteca_multiple_inyeccion(capital_inicial, tasa,
plazo_inicial, cuota_inicial, inyecciones)` from `modules/calculations.py`.
The dict-shape validations of the Python code are enforced statically by the
`Inyeccion` type. -/
noncomputable def simulacion_hipoteca_multiple_inyeccion (capital tasa : ℚ) (plazo : ℤ)
    (cuota : ℚ) (inys : List Inyeccion) : Except Err (List RegistroIny) :=
  if capital ≤ 0 then .error .capitalNoPositivo
  else if plazo ≤ 0 then .error .plazoNoPositivo
  else if cuota ≤ 0 then .error .cuotaNoPositiva
  else miLoop tasa inys plazo.toNat 1 capital cuota plazo none

/-- One row appended by `simulacion_hipoteca_variable_montecarlo`. -/
structure RegistroMC where
  mes : ℕ
  euribor : ℚ
  tasaAnual : ℚ
  capital : ℚ
  cuota : ℚ
  intereses : ℚ
  amortizacion : ℚ
  inyeccion : ℚ
deriving DecidableEq, Repr

/-- The month loop of `simulacion_hipoteca_variable_montecarlo`
(`modules/monte_carlo.py`): annual payment recomputation, injection with
silent clamping to the pending principal, and post-injection recalculations.
`plazoIni` is the immutable `plazo_inicial` argument; `plazoRest` the mutable
`plazo_restante`. -/
noncomputable def mcLoop (spread : ℚ) (scenario : List ℚ) (inys : List Inyeccion)
    (plazoIni : ℤ) :
    ℕ → ℕ → ℚ → ℚ → ℤ → Option Policy → Except Err (List RegistroMC)
  | 0, _, _, _, _, _ => .ok []
  | fuel + 1, mes, cap, cuota, plazoRest, opcion => do
    if cap ≤ 0 ∨ plazoRest ≤ 0 then Except.ok []
    else
      let euribor := scenario.getD (mes - 1) 0
      let tasa := euribor + spread
      let cuota1E : Except Err ℚ :=
        if mes % 12 = 1 ∧ 1 < mes ∧ 0 < plazoRest then
          cuota_mensual cap tasa plazoRest
        else Except.ok cuota
      let cuota1 ← cuota1E
      let busca := buscar_inyeccion inys mes
      let iny0 := busca.1
      let tipoMes := busca.2
      let inyMes := if 0 < iny0 then min iny0 cap else iny0
      let cap1 := if 0 < iny0 then cap - inyMes else cap
      if cap1 ≤ 0 then
        Except.ok [⟨mes, euribor, tasa, 0, 0, 0, 0, inyMes⟩]
      else
        let interes := intereses_mensuales cap1 tasa
        let amort := min (cuota1 - interes) cap1
        let reg : RegistroMC := ⟨mes, euribor, tasa, cap1, cuota1, interes, amort, inyMes⟩
        let cap2 := cap1 - amort
        let plazoRest1 := plazoRest - 1
        if (0 < inyMes ∨ tipoMes.isSome) ∧ 0 < cap2 then
          let opcion1 := tipoOActual tipoMes opcion
          match opcion1 with
          | some .cuota => do
            let plazoCalc := max (plazoIni - mes) 1
            let cuota2E : Except Err ℚ :=
              if 0 < plazoCalc then cuota_mensual cap2 tasa plazoCalc
              else Except.ok cuota1
            let cuota2 ← cuota2E
            let rest ← mcLoop spread scenario inys plazoIni fuel (mes + 1) cap2
              cuota2 plazoRest1 opcion1
            pure (reg :: rest)
          | some .plazo => do
            let nuevo ← calcular_plazo cap2 tasa cuota1
            let plazoRest2 := if 0 < nuevo then nuevo else plazoRest1
            let rest ← mcLoop spread scenario inys plazoIni fuel (mes + 1) cap2
              cuota1 plazoRest2 opcion1
            pure (reg :: rest)
          | none => do
            let rest ← mcLoop spread scenario inys plazoIni fuel (mes + 1) cap2
              cuota1 plazoRest1 opcion1
            pure (reg :: rest)
        else do
          let rest ← mcLoop spread scenario inys plazoIni fuel (mes + 1) cap2
            cuota1 plazoRest1 opcion
          pure (reg :: rest)

/-- `simulacion_hipoteca_variable_montecarlo(capital_inicial, spread,
plazo_inicial, euribor_scenario, inyecciones)` from
`modules/monte_carlo.py`.  `euribor_scenario[0]` on an empty list raises
`IndexError`; the loop runs `min(plazo_inicial, len(euribor_scenario))`
times. -/
noncomputable def simulacion_hipoteca_variable_montecarlo (capital spread : ℚ) (plazo : ℤ)
    (scenario : List ℚ) (inys : List Inyeccion) :
    Except Err (List RegistroMC) :=
  match scenario with
  | [] => .error .indexError
  | e0 :: _ => do
    let cuota0 ← cuota_mensual capital (e0 + spread) plazo
    mcLoop spread scenario inys plazo (min plazo.toNat scenario.length) 1
      capital cuota0 plazo none

/-- One row appended by `simulacion_hipoteca_mixta`; `periodoFijo` models the
`'Tipo_Periodo'` column (`"Fijo"` / `"Variable"`). -/
structure RegistroMixta where
  mes : ℕ
  periodoFijo : Bool
  euribor : ℚ
  tasaAnual : ℚ
  capital : ℚ
  cuota : ℚ
  intereses : ℚ
  amortizacion : ℚ
  inyeccion : ℚ
deriving DecidableEq, Repr

/-- The month loop of `simulacion_hipoteca_mixta`
(`modules/mixed_mortgage.py`): fixed rate for `mesesFijos` months, then
Euribor + spread with a payment recomputation at the transition and annually
afterwards; injections behave exactly as in the Monte-Carlo loop. -/
noncomputable def mixtaLoop (tasaFija spread : ℚ) (scenario : List ℚ) (inys : List Inyeccion)
    (plazoIni : ℤ) (mesesFijos : ℕ) :
    ℕ → ℕ → ℚ → ℚ → ℤ → Option Policy → Except Err (List RegistroMixta)
  | 0, _, _, _, _, _ => .ok []
  | fuel + 1, mes, cap, cuota, plazoRest, opcion => do
    if cap ≤ 0 ∨ plazoRest ≤ 0 then Except.ok []
    else
      let euribor := scenario.getD (mes - 1) 0
      let fijo := mes ≤ mesesFijos
      let tasa := if fijo then tasaFija else euribor + spread
      let cuota1E : Except Err ℚ :=
        if fijo then Except.ok cuota
        else if mes = mesesFijos + 1 then cuota_mensual cap tasa plazoRest
        else if (mes - mesesFijos) % 12 = 1 ∧ mesesFijos + 1 < mes then
          cuota_mensual cap tasa plazoRest
        else Except.ok cuota
      let cuota1 ← cuota1E
      let busca := buscar_inyeccion inys mes
      let iny0 := busca.1
      let tipoMes := busca.2
      let inyMes := if 0 < iny0 then min iny0 cap else iny0
      let cap1 := if 0 < iny0 then cap - inyMes else cap
      if cap1 ≤ 0 then
        Except.ok [⟨mes, fijo, euribor, tasa, 0, 0, 0, 0, inyMes⟩]
      else
        let interes := intereses_mensuales cap1 tasa
        let amort := min (cuota1 - interes) cap1
        let reg : RegistroMixta :=
          ⟨mes, fijo, euribor, tasa, cap1, cuota1, interes, amort, inyMes⟩
        let cap2 := cap1 - amort
        let plazoRest1 := plazoRest - 1
        if (0 < inyMes ∨ tipoMes.isSome) ∧ 0 < cap2 then
          let opcion1 := tipoOActual tipoMes opcion
          match opcion1 with
          | some .cuota => do
            let plazoCalc := max (plazoIni - mes) 1
            let cuota2E : Except Err ℚ :=
              if 0 < plazoCalc then cuota_mensual cap2 tasa plazoCalc
              else Except.ok cuota1
            let cuota2 ← cuota2E
            let rest ← mixtaLoop tasaFija spread scenario inys plazoIni
              mesesFijos fuel (mes + 1) cap2 cuota2 plazoRest1 opcion1
            pure (reg :: rest)
          | some .plazo => do
            let nuevo ← calcular_plazo cap2 tasa cuota1
            let plazoRest2 := if 0 < nuevo then nuevo else plazoRest1
            let rest ← mixtaLoop tasaFija spread scenario inys plazoIni
              mesesFijos fuel (mes + 1) cap2 cuota1 plazoRest2 opcion1
            pure (reg :: rest)
          | none => do
            let rest ← mixtaLoop tasaFija spread scenario inys plazoIni
              mesesFijos fuel (mes + 1) cap2 cuota1 plazoRest1 opcion1
            pure (reg :: rest)
        else do
          let rest ← mixtaLoop tasaFija spread scenario inys plazoIni
            mesesFijos fuel (mes + 1) cap2 cuota1 plazoRest1 opcion
          pure (reg :: rest)

/-- `simulacion_hipoteca_mixta(capital_inicial, tasa_fija, spread,
plazo_inicial, anos_fijos, euribor_scenario, inyecciones)` from
`modules/mixed_mortgage.py`. -/
noncomputable def simulacion_hipoteca_mixta (capital tasaFija spread : ℚ) (plazo : ℤ)
    (anosFijos : ℕ) (scenario : List ℚ) (inys : List Inyeccion) :
    Except Err (List RegistroMixta) := do
  let cuota0 ← cuota_mensual capital tasaFija plazo
  mixtaLoop tasaFija spread scenario inys plazo (anosFijos * 12)
    (min plazo.toNat scenario.length) 1 capital cuota0 plazo none

/-- The four `distribution_type` values accepted by
`generate_euribor_scenario` (`modules/monte_carlo.py`); any other string falls
through to the Constant branch, so the tag models the branch taken. -/
inductive DistType where
  | gaussian : DistType
  | meanReverting : DistType
  | uniformRandomWalk : DistType
  | constant : DistType
deriving DecidableEq, Repr

/-- Distribution parameters read via `params.get(...)` that enter the path
recurrence outside the random draw itself (`drift` for Gaussian;
`mean_level` and `reversion_speed` for Mean Reverting).  `volatility` and
`max_change` only scale the random draw and are absorbed into the draw
oracle. -/
structure DistParams where
  drift : ℚ
  mean_level : ℚ
  reversion_speed : ℚ
deriving DecidableEq, Repr

/-- The shared path loop of the three stochastic branches of
`generate_euribor_scenario`: starting from the current value, apply the
per-month step and floor the result at -1.0, collecting the values after the
initial one (`euribor_values[1:]`).  `draws k` models the value returned by
the k-th `np.random.*` call. -/
def caminoConSuelo (step : ℚ → ℕ → ℚ) : ℕ → ℚ → ℕ → List ℚ
  | 0, _, _ => []
  | n + 1, cur, k =>
    let nuevo := max (step cur k) (-1)
    nuevo :: caminoConSuelo step n nuevo (k + 1)

/-- `generate_euribor_scenario(initial_euribor, plazo_anos,
distribution_type, **params)` from `modules/monte_carlo.py`.  Gaussian:
`change = drift/12 + (volatility/sqrt 12)·N(0,1)`, the centered part being
the oracle draw; Mean Reverting: Euler-Maruyama with `dt = 1/12` and oracle
random term; Uniform Random Walk: oracle uniform change; Constant: the
initial value repeated with no floor applied. -/
def generate_euribor_scenario (initial : ℚ) (plazoAnos : ℕ) (dist : DistType)
    (params : DistParams) (draws : ℕ → ℚ) : List ℚ :=
  match dist with
  | .gaussian =>
    caminoConSuelo (fun cur k => cur + (params.drift / 12 + draws k))
      (plazoAnos * 12) initial 0
  | .meanReverting =>
    caminoConSuelo
      (fun cur k =>
        cur + params.reversion_speed * (params.mean_level - cur) * (1 / 12) + draws k)
      (plazoAnos * 12) initial 0
  | .uniformRandomWalk =>
    caminoConSuelo (fun cur k => cur + draws k) (plazoAnos * 12) initial 0
  | .constant => List.replicate (plazoAnos * 12) initial

/-- The per-record arithmetic invariant common to all recurrence paths:
interest is pending times the monthly rate in force, and the principal
portion is `min(payment - interest, pending)` — with no check that the
payment covers the interest. -/
def registroMinInv (capital cuota intereses amortizacion tasa : ℚ) : Prop :=
  intereses = capital * (tasa / 1200) ∧
  amortizacion = min (cuota - intereses) capital

/-- Arithmetic mean of a list of values, as numpy/pandas compute it. -/
def meanQ (l : List ℚ) : ℚ := l.sum / l.length

/-- Sample variance with divisor `N - 1`, the pandas `agg('std')` default
(`ddof = 1`); its square root is the reported std. -/
def sampleVarQ (l : List ℚ) : ℚ :=
  ((l.map (fun x => (x - meanQ l) ^ 2)).sum) / ((l.length : ℚ) - 1)

/-- Modelled from the spec: the population variance (divisor `N`, not
`N - 1`) whose square root is the "population standard deviation" the spec
says the ensemble aggregation computes. -/
def popVarQ (l : List ℚ) : ℚ :=
  ((l.map (fun x => (x - meanQ l) ^ 2)).sum) / (l.length : ℚ)

/-- Round-half-to-even on rationals, the rounding mode of numpy/pandas
`round`. -/
def bankersRoundQ (x : ℚ) : ℤ :=
  if Int.fract x = 1 / 2 then 2 * round (x / 2) else round x

/-- Round a rational to two decimals, numpy-style. -/
def round2q (x : ℚ) : ℚ := (bankersRoundQ (x * 100) : ℚ) / 100

/-- Round-half-to-even on reals. -/
noncomputable def bankersRoundR (x : ℝ) : ℤ :=
  if Int.fract x = 1 / 2 then 2 * round (x / 2) else round x

/-- Round a real to two decimals, numpy-style. -/
noncomputable def round2r (x : ℝ) : ℝ := (bankersRoundR (x * 100) : ℝ) / 100

/-- `np.percentile(x, q)` with the default linear interpolation: position
`h = q/100·(n-1)` in the sorted values, interpolating between the floor and
ceiling ranks. -/
def percentileQ (l : List ℚ) (q : ℚ) : ℚ :=
  let s := List.insertionSort (· ≤ ·) l
  let n := s.length
  if n = 0 then 0
  else
    let h : ℚ := q / 100 * ((n : ℚ) - 1)
    s.getD (⌊h⌋).toNat 0 + (h - ⌊h⌋) * (s.getD (⌈h⌉).toNat 0 - s.getD (⌊h⌋).toNat 0)

/-- One aggregated cell block of `calculate_simulation_statistics`: the four
aggregators `['mean', 'std', percentile 5, percentile 95]` applied to one
column of one month group, rounded to two decimals (`.round(2)`).  The std is
the square root of the sample variance (pandas `ddof = 1`). -/
structure ColStats where
  mean : ℚ
  std : ℝ
  p5 : ℚ
  p95 : ℚ

/-- The four aggregators applied to one column of values. -/
noncomputable def colStats (l : List ℚ) : ColStats :=
  { mean := round2q (meanQ l)
    std := round2r (Real.sqrt ((sampleVarQ l : ℚ) : ℝ))
    p5 := round2q (percentileQ l 5)
    p95 := round2q (percentileQ l 95) }

/-- The sorted, de-duplicated month keys of a pandas `groupby('Mes')`. -/
def mesesOrdenados (flat : List RegistroMC) : List ℕ :=
  List.insertionSort (· ≤ ·) (flat.map (·.mes)).dedup

/-- `calculate_simulation_statistics(df_all_sims)` from
`modules/monte_carlo.py`: group the concatenated per-simulation records by
month, and per group aggregate the payment, interest, principal and Euribor
columns with mean, (sample) std, 5th and 95th percentile, rounded to two
decimals.  A pandas group holds the rows with that key in original order,
i.e. the filter of the flat frame by the month. -/
noncomputable def calculate_simulation_statistics (flat : List RegistroMC) :
    List (ℕ × ColStats × ColStats × ColStats × ColStats) :=
  (mesesOrdenados flat).map fun m =>
    let g := flat.filter (fun r => r.mes = m)
    (m, colStats (g.map (·.cuota)), colStats (g.map (·.intereses)),
      colStats (g.map (·.amortizacion)), colStats (g.map (·.euribor)))

/-- The `for i in range(num_simulations)` loop of
`run_monte_carlo_simulation`: generate a fresh scenario with the i-th trial's
draws, run the variable-rate simulation on it, tag the result with the trial
index, and fail fast on the first exception. -/
noncomputable def mcRuns (capital spread : ℚ) (plazoAnos : ℕ) (initialEuribor : ℚ)
    (dist : DistType) (params : DistParams) (inys : List Inyeccion)
    (draws : ℕ → ℕ → ℚ) : ℕ → ℕ → Except Err (List (ℕ × List RegistroMC))
  | 0, _ => .ok []
  | n + 1, i => do
    let sc := generate_euribor_scenario initialEuribor plazoAnos dist params (draws i)
    let df ← simulacion_hipoteca_variable_montecarlo capital spread
      (plazoAnos * 12) sc inys
    let rest ← mcRuns capital spread plazoAnos initialEuribor dist params inys
      draws n (i + 1)
    pure ((i, df) :: rest)

/-- `run_monte_carlo_simulation(capital_inicial, spread, plazo_anos,
initial_euribor, distribution_type, num_simulations, inyecciones,
**dist_params)` from `modules/monte_carlo.py`.  `draws i` is the draw oracle
of the i-th trial (each call of `generate_euribor_scenario` re-seeds and
draws fresh values). -/
noncomputable def run_monte_carlo_simulation (capital spread : ℚ)
    (plazoAnos : ℕ) (initialEuribor : ℚ) (dist : DistType) (params : DistParams)
    (numSimulations : ℕ) (inys : List Inyeccion) (draws : ℕ → ℕ → ℚ) :
    Except Err (List (ℕ × List RegistroMC)) :=
  mcRuns capital spread plazoAnos initialEuribor dist params inys draws
    numSimulations 0

/-- `pd.concat(all_simulations)`: the tagged per-trial frames concatenated
into one flat frame (the `Simulation` tag column is ignored by the
`groupby('Mes')` aggregation). -/
def flattenRuns (rs : List (ℕ × List RegistroMC)) : List RegistroMC :=
  (rs.map Prod.snd).flatten

/-- Proof auxiliary (closed form, not part of the source): the theoretical
outstanding balance after `j` of `n` months of an annuity at monthly rate `i`
on principal `c`. -/
def saldoTeorico (c i : ℚ) (n j : ℕ) : ℚ :=
  c * ((1 + i) ^ n - (1 + i) ^ j) / ((1 + i) ^ n - 1)

/-- Proof auxiliary (closed form, not part of the source): the annuity payment
written with positive exponents, `c·i·(1+i)^n / ((1+i)^n - 1)`. -/
def cuotaTeorica (c i : ℚ) (n : ℕ) : ℚ :=
  c * i * (1 + i) ^ n / ((1 + i) ^ n - 1)

end Mortgages

namespace Mortgages

/-- C4: `cuota_mensual` raises exactly when `plazo ≤ 0`; with a positive term
it returns 0 for non-positive principal, and otherwise the annuity formula
`capital·i/(1 - (1+i)^(-plazo))` with `i = tasa/1200`. -/
theorem C4_cuota_mensual_spec (capital tasa : ℚ) (plazo : ℤ) :
    (plazo ≤ 0 → cuota_mensual capital tasa plazo = .error .plazoNoPositivo) ∧
    (0 < plazo → capital ≤ 0 → cuota_mensual capital tasa plazo = .ok 0) ∧
    (0 < plazo → 0 < capital →
      cuota_mensual capital tasa plazo =
        .ok ((capital * (tasa / 1200)) / (1 - (1 + tasa / 1200) ^ (-plazo)))) := by
  refine ⟨fun h => ?_, fun h hc => ?_, fun h hc => ?_⟩
  · simp [cuota_mensual, h]
  · simp [cuota_mensual, not_le.2 h, hc]
  · simp [cuota_mensual, not_le.2 h, not_le.2 hc, cuotaVal]

/-- C4 witness: concretely, a 1-month loan of 100 at annual rate 1200%
(monthly rate 1) has payment 200; term 0 raises; principal 0 yields 0. -/
theorem C4_cuota_mensual_spec_witness :
    cuota_mensual 100 1200 0 = .error .plazoNoPositivo ∧
    cuota_mensual 0 1200 1 = .ok 0 ∧
    cuota_mensual 100 1200 1 =
      .ok ((100 * ((1200 : ℚ) / 1200)) / (1 - (1 + (1200 : ℚ) / 1200) ^ (-(1 : ℤ)))) := by
  refine ⟨(C4_cuota_mensual_spec 100 1200 0).1 (by decide),
          (C4_cuota_mensual_spec 0 1200 1).2.1 (by decide) (by decide),
          (C4_cuota_mensual_spec 100 1200 1).2.2 (by decide) (by decide)⟩

/-- C10: `calcular_plazo` with non-positive principal returns 0 and raises no
error; neither the payment-too-low check nor the floor at one month applies. -/
theorem C10_calcular_plazo_nonpositive_capital (capital tasa cuota : ℚ)
    (h : capital ≤ 0) : calcular_plazo capital tasa cuota = .ok 0 := by
  simp [calcular_plazo, h]

/-- C10 witness: `calcular_plazo (-5) 3 100 = .ok 0`. -/
theorem C10_calcular_plazo_nonpositive_capital_witness :
    calcular_plazo (-5) 3 100 = .ok 0 :=
  C10_calcular_plazo_nonpositive_capital (-5) 3 100 (by norm_num)

/-- C5: for positive principal, `calcular_plazo` fails with the
payment-too-low error iff `cuota ≤ capital·i`, and otherwise returns
`max(ceil(-log(1 - capital·i/cuota)/log(1+i)), 1)`; in particular
principal 200000, rate 3.22, payment 500 fails. -/
theorem C5_calcular_plazo_spec (capital tasa cuota : ℚ) (hc : 0 < capital) :
    (calcular_plazo capital tasa cuota = .error .cuotaNoCubreIntereses ↔
      cuota ≤ capital * (tasa / 1200)) ∧
    (capital * (tasa / 1200) < cuota →
      calcular_plazo capital tasa cuota =
        .ok (max ⌈-Real.log (1 - (capital : ℝ) * ((tasa : ℝ) / 1200) / (cuota : ℝ)) /
          Real.log (1 + (tasa : ℝ) / 1200)⌉ 1)) := by
  constructor
  · constructor
    · intro h
      by_contra hq
      simp [calcular_plazo, not_le.2 hc, hq] at h
    · intro h
      simp [calcular_plazo, not_le.2 hc, h]
  · intro h
    simp [calcular_plazo, not_le.2 hc, not_le.2 h, plazoLogValor]

/-- C5 witness: `calcular_plazo 200000 (322/100) 500` fails with the
payment-too-low error, because `500 ≤ 200000·(3.22/1200)`. -/
theorem C5_calcular_plazo_spec_witness :
    calcular_plazo 200000 (322 / 100) 500 = .error .cuotaNoCubreIntereses :=
  ((C5_calcular_plazo_spec 200000 (322 / 100) 500 (by norm_num)).1).2 (by norm_num)

end Mortgages

namespace Mortgages

section AnnuityClosedForm

variable {c t i : ℚ} {n : ℕ}

lemma one_add_pos (hi : 0 < i) : (0 : ℚ) < 1 + i := by linarith

lemma pow_base_lt (hi : 0 < i) {a b : ℕ} (hab : a < b) :
    (1 + i) ^ a < (1 + i) ^ b :=
  pow_lt_pow_right₀ (by linarith) hab

lemma pow_sub_one_pos (hi : 0 < i) (hn : 0 < n) : (0 : ℚ) < (1 + i) ^ n - 1 := by
  have := one_lt_pow₀ (a := (1 + i : ℚ)) (by linarith) (Nat.pos_iff_ne_zero.mp hn)
  linarith

lemma saldoTeorico_zero (hi : 0 < i) (hn : 0 < n) :
    saldoTeorico c i n 0 = c := by
  have h := (pow_sub_one_pos hi hn (i := i)).ne'
  field_simp [saldoTeorico]

lemma saldoTeorico_self : saldoTeorico c i n n = 0 := by
  simp [saldoTeorico]

lemma saldoTeorico_pos (hi : 0 < i) (hc : 0 < c) {j : ℕ} (hj : j < n) :
    0 < saldoTeorico c i n j := by
  have hnum : (0 : ℚ) < (1 + i) ^ n - (1 + i) ^ j := by
    have := pow_base_lt hi hj
    linarith
  have hden := pow_sub_one_pos hi (show 0 < n by omega) (i := i)
  exact div_pos (mul_pos hc hnum) hden

lemma saldoTeorico_nonneg (hi : 0 < i) (hc : 0 < c) {j : ℕ} (hj : j ≤ n) :
    0 ≤ saldoTeorico c i n j := by
  rcases lt_or_eq_of_le hj with h | h
  · exact (saldoTeorico_pos hi hc h).le
  · subst h; simp [saldoTeorico_self]

lemma saldoTeorico_step (hi : 0 < i) (hn : 0 < n) (j : ℕ) :
    saldoTeorico c i n j - (cuotaTeorica c i n - i * saldoTeorico c i n j) =
      saldoTeorico c i n (j + 1) := by
  have h := (pow_sub_one_pos hi hn (i := i)).ne'
  field_simp [saldoTeorico, cuotaTeorica]
  ring

lemma cuotaTeorica_pos (hi : 0 < i) (hn : 0 < n) (hc : 0 < c) :
    0 < cuotaTeorica c i n := by
  have hden := pow_sub_one_pos hi hn (i := i)
  have hb := one_add_pos hi
  exact div_pos (mul_pos (mul_pos hc hi) (pow_pos hb n)) hden

lemma cuotaVal_eq_cuotaTeorica (hi : 0 < i) (hn : 0 < n) :
    cuotaVal c (1200 * i) n = cuotaTeorica c i n := by
  have hb : (0 : ℚ) < 1 + i := one_add_pos hi
  have hA : (0 : ℚ) < (1 + i) ^ n := pow_pos hb n
  have hA1 : (0 : ℚ) < (1 + i) ^ n - 1 := pow_sub_one_pos hi hn
  have hrate : (1200 : ℚ) * i / 1200 = i := by ring
  have hz : ((1 : ℚ) + i) ^ (-(n : ℤ)) = ((1 + i) ^ n)⁻¹ := by
    rw [zpow_neg, zpow_natCast]
  rw [cuotaVal, cuotaTeorica, hrate, hz, inv_eq_one_div]
  rw [show (1 : ℚ) - 1 / (1 + i) ^ n = ((1 + i) ^ n - 1) / (1 + i) ^ n by
    field_simp]
  rw [div_div_eq_mul_div]

lemma simpleLoop_len_sum (hc : 0 < c) (hi : 0 < i) (hn : 0 < n) :
    ∀ (k j mes : ℕ), j + k = n →
      (simpleLoop (1200 * i) (cuotaTeorica c i n) k mes
          (saldoTeorico c i n j)).length = k ∧
      ((simpleLoop (1200 * i) (cuotaTeorica c i n) k mes
          (saldoTeorico c i n j)).map (·.amortizacion)).sum = saldoTeorico c i n j := by
  intro k
  induction k with
  | zero =>
    intro j mes hj
    have hjn : j = n := by omega
    subst hjn
    simp [simpleLoop, saldoTeorico_self]
  | succ k ih =>
    intro j mes hj
    have hjlt : j < n := by omega
    have hpos := saldoTeorico_pos hi hc hjlt
    have hint : intereses_mensuales (saldoTeorico c i n j) (1200 * i) =
        i * saldoTeorico c i n j := by
      rw [intereses_mensuales]; ring
    have hstep := saldoTeorico_step (c := c) hi hn j
    have hnext : 0 ≤ saldoTeorico c i n (j + 1) :=
      saldoTeorico_nonneg hi hc (by omega)
    have hmin : min (cuotaTeorica c i n - i * saldoTeorico c i n j)
        (saldoTeorico c i n j) =
        cuotaTeorica c i n - i * saldoTeorico c i n j := by
      apply min_eq_left
      linarith
    have hih := ih (j + 1) (mes + 1) (by omega)
    rw [simpleLoop, if_neg (not_le.2 hpos)]
    simp only [hint, hmin, hstep, List.length_cons, List.map_cons, List.sum_cons]
    exact ⟨by rw [hih.1], by rw [hih.2]; linarith⟩

end AnnuityClosedForm

/-- C6: with the payment produced by the annuity formula, the simple
fixed-rate no-injection simulation emits exactly `plazo` monthly records and
its recorded principal portions sum exactly (in exact arithmetic) to the
initial principal. -/
theorem C6_simple_simulation_amortizes_principal (c t : ℚ) (n : ℕ)
    (hc : 0 < c) (ht : 0 < t) (hn : 0 < n) :
    cuota_mensual c t n = .ok (cuotaVal c t n) ∧
    simulacion_hipoteca_simple c t n (cuotaVal c t n) =
      .ok (simpleLoop t (cuotaVal c t n) n 1 c) ∧
    (simpleLoop t (cuotaVal c t n) n 1 c).length = n ∧
    ((simpleLoop t (cuotaVal c t n) n 1 c).map (·.amortizacion)).sum = c := by
  have hi : 0 < t / 1200 := by positivity
  have harg : (1200 : ℚ) * (t / 1200) = t := by ring
  have hcv : cuotaVal c t n = cuotaTeorica c (t / 1200) n := by
    have h := cuotaVal_eq_cuotaTeorica (c := c) (i := t / 1200) (n := n) hi hn
    rwa [harg] at h
  have hcvpos : 0 < cuotaVal c t n := hcv ▸ cuotaTeorica_pos hi hn hc
  have hnz : ¬ ((n : ℤ) ≤ 0) := by exact_mod_cast not_le.2 (Int.natCast_pos.2 hn)
  have hloop := simpleLoop_len_sum hc hi hn n 0 1 (by omega)
  rw [saldoTeorico_zero hi hn] at hloop
  have hfix : simpleLoop t (cuotaVal c t n) n 1 c =
      simpleLoop (1200 * (t / 1200)) (cuotaTeorica c (t / 1200) n) n 1 c := by
    rw [hcv, harg]
  refine ⟨by simp [cuota_mensual, hnz, not_le.2 hc], ?_, ?_, ?_⟩
  · rw [simulacion_hipoteca_simple, if_neg (not_le.2 hc), if_neg hnz,
      if_neg (not_le.2 hcvpos), Int.toNat_natCast]
  · rw [hfix]; exact hloop.1
  · rw [hfix]; exact hloop.2

/-- C6 witness: principal 100 at annual rate 1200% (monthly rate 1) over
2 months: payment 400/3, two records, principal portions summing to 100. -/
theorem C6_simple_simulation_amortizes_principal_witness :
    cuota_mensual 100 1200 2 = .ok (cuotaVal 100 1200 2) ∧
    simulacion_hipoteca_simple 100 1200 2 (cuotaVal 100 1200 2) =
      .ok (simpleLoop 1200 (cuotaVal 100 1200 2) 2 1 100) ∧
    (simpleLoop 1200 (cuotaVal 100 1200 2) 2 1 100).length = 2 ∧
    ((simpleLoop 1200 (cuotaVal 100 1200 2) 2 1 100).map (·.amortizacion)).sum = 100 :=
  C6_simple_simulation_amortizes_principal 100 1200 2
    (by norm_num) (by norm_num) (by norm_num)

end Mortgages

namespace Mortgages

@[simp] lemma ok_bind {ε α β : Type} (a : α) (f : α → Except ε β) :
    (Except.ok a >>= f) = f a := rfl

@[simp] lemma error_bind {ε α β : Type} (e : ε) (f : α → Except ε β) :
    (Except.error e >>= f : Except ε β) = Except.error e := rfl

@[simp] lemma map_ok {ε α β : Type} (f : α → β) (a : α) :
    (f <$> (Except.ok a : Except ε α)) = Except.ok (f a) := rfl

@[simp] lemma map_error {ε α β : Type} (f : α → β) (e : ε) :
    (f <$> (Except.error e : Except ε α)) = Except.error e := rfl

@[simp] lemma pure_eq_ok {ε α : Type} (a : α) :
    (pure a : Except ε α) = Except.ok a := rfl

lemma bind_eq_error {ε α β : Type} {x : Except ε α} {f : α → Except ε β} {e : ε} :
    (x >>= f) = Except.error e ↔
      x = Except.error e ∨ ∃ a, x = Except.ok a ∧ f a = Except.error e := by
  cases x with
  | ok a => simp
  | error e1 => simp

lemma bind_eq_ok {ε α β : Type} {x : Except ε α} {f : α → Except ε β} {b : β} :
    (x >>= f) = Except.ok b ↔ ∃ a, x = Except.ok a ∧ f a = Except.ok b := by
  cases x with
  | ok a => simp
  | error e1 => simp

/-- C1 counterexample: a run of the fixed multiple-injection recurrence whose
payment (500) is below the first month's interest (1000): the run succeeds
(no PaymentTooLow), records negative principal portions (-500, then -1000),
and the pending principal grows from 1000 to 1500. -/
theorem C1_counterexample_negative_amortization :
    simulacion_hipoteca_multiple_inyeccion 1000 1200 2 500 [] =
      .ok [⟨1, 1000, 500, 1000, -500, 0, none⟩,
           ⟨2, 1500, 500, 1500, -1000, 0, none⟩] ∧
    (500 : ℚ) - 1000 < 0 ∧ (-500 : ℚ) < 0 ∧ (1000 : ℚ) < 1500 := by
  refine ⟨?_, by norm_num, by norm_num, by norm_num⟩
  norm_num [simulacion_hipoteca_multiple_inyeccion, miLoop, buscar_inyeccion,
    intereses_mensuales, tipoOActual, min_def]

/-- C2 counterexample: in the fixed multiple-injection path an injection
(2000) exceeding the pending principal (1000) aborts the run with a hard
error instead of being clamped. -/
theorem C2_counterexample_fixed_path_raises :
    simulacion_hipoteca_multiple_inyeccion 1000 12 1 100 [⟨1, 2000, some .cuota⟩] =
      .error .inyeccionSuperaCapital ∧ (1000 : ℚ) < 2000 := by
  refine ⟨?_, by norm_num⟩
  norm_num [simulacion_hipoteca_multiple_inyeccion, miLoop, buscar_inyeccion,
    intereses_mensuales, tipoOActual, min_def]

end Mortgages

namespace Mortgages

lemma buscar_inyeccion_append_last (l : List Inyeccion) (iny : Inyeccion)
    (m : ℕ) (h : iny.mes = m) :
    buscar_inyeccion (l ++ [iny]) m = (iny.capital, iny.tipo) := by
  unfold buscar_inyeccion
  rw [List.foldl_append]
  simp [h]

lemma miLoop_congr {tasa : ℚ} {l l' : List Inyeccion}
    (hb : ∀ m, buscar_inyeccion l m = buscar_inyeccion l' m) :
    ∀ (fuel mes : ℕ) (cap cuota : ℚ) (plazoIni : ℤ) (op : Option Policy),
      miLoop tasa l fuel mes cap cuota plazoIni op =
        miLoop tasa l' fuel mes cap cuota plazoIni op := by
  intro fuel
  induction fuel with
  | zero => intro mes cap cuota pIni op; rfl
  | succ fuel ih =>
    intro mes cap cuota pIni op
    simp only [miLoop, hb, ih]

lemma mcLoop_congr {spread : ℚ} {sc : List ℚ} {l l' : List Inyeccion}
    {plazoIni : ℤ}
    (hb : ∀ m, buscar_inyeccion l m = buscar_inyeccion l' m) :
    ∀ (fuel mes : ℕ) (cap cuota : ℚ) (plazoRest : ℤ) (op : Option Policy),
      mcLoop spread sc l plazoIni fuel mes cap cuota plazoRest op =
        mcLoop spread sc l' plazoIni fuel mes cap cuota plazoRest op := by
  intro fuel
  induction fuel with
  | zero => intro mes cap cuota pr op; rfl
  | succ fuel ih =>
    intro mes cap cuota pr op
    simp only [mcLoop, hb, ih]

lemma mixtaLoop_congr {tasaFija spread : ℚ} {sc : List ℚ} {l l' : List Inyeccion}
    {plazoIni : ℤ} {mesesFijos : ℕ}
    (hb : ∀ m, buscar_inyeccion l m = buscar_inyeccion l' m) :
    ∀ (fuel mes : ℕ) (cap cuota : ℚ) (plazoRest : ℤ) (op : Option Policy),
      mixtaLoop tasaFija spread sc l plazoIni mesesFijos fuel mes cap cuota plazoRest op =
        mixtaLoop tasaFija spread sc l' plazoIni mesesFijos fuel mes cap cuota plazoRest op := by
  intro fuel
  induction fuel with
  | zero => intro mes cap cuota pr op; rfl
  | succ fuel ih =>
    intro mes cap cuota pr op
    simp only [mixtaLoop, hb, ih]

/-- C9: the per-month injection lookup is last-match-wins in all three
recurrence paths: appending an entry for month `m` makes that entry the one
applied at `m` regardless of earlier entries (amounts are never summed), and
every recurrence depends on the injection list only through this lookup. -/
theorem C9_duplicate_injection_months_last_wins :
    (∀ (l : List Inyeccion) (iny : Inyeccion) (m : ℕ), iny.mes = m →
      buscar_inyeccion (l ++ [iny]) m = (iny.capital, iny.tipo)) ∧
    (∀ (l l' : List Inyeccion),
      (∀ m, buscar_inyeccion l m = buscar_inyeccion l' m) →
      (∀ (c t : ℚ) (p : ℤ) (q : ℚ),
        simulacion_hipoteca_multiple_inyeccion c t p q l =
          simulacion_hipoteca_multiple_inyeccion c t p q l') ∧
      (∀ (c spread : ℚ) (p : ℤ) (sc : List ℚ),
        simulacion_hipoteca_variable_montecarlo c spread p sc l =
          simulacion_hipoteca_variable_montecarlo c spread p sc l') ∧
      (∀ (c tf spread : ℚ) (p : ℤ) (af : ℕ) (sc : List ℚ),
        simulacion_hipoteca_mixta c tf spread p af sc l =
          simulacion_hipoteca_mixta c tf spread p af sc l')) := by
  refine ⟨buscar_inyeccion_append_last, fun l l' hb => ⟨?_, ?_, ?_⟩⟩
  · intro c t p q
    unfold simulacion_hipoteca_multiple_inyeccion
    simp only [miLoop_congr hb]
  · intro c spread p sc
    unfold simulacion_hipoteca_variable_montecarlo
    cases sc with
    | nil => rfl
    | cons e0 rest => simp only [mcLoop_congr hb]
  · intro c tf spread p af sc
    unfold simulacion_hipoteca_mixta
    simp only [mixtaLoop_congr hb]

/-- C9 witness: with two injections both scheduled for month 1, the second
one (50, reduce-term) is the one applied — not the first and not the sum
150 — and identical-lookup lists give identical runs. -/
theorem C9_duplicate_injection_months_last_wins_witness :
    buscar_inyeccion ([⟨1, 100, some .cuota⟩] ++ [⟨1, 50, some .plazo⟩]) 1 =
      ((50 : ℚ), some Policy.plazo) ∧
    simulacion_hipoteca_multiple_inyeccion 1000 12 2 100
        [⟨1, 100, some .cuota⟩] =
      simulacion_hipoteca_multiple_inyeccion 1000 12 2 100
        [⟨1, 100, some .cuota⟩] :=
  ⟨C9_duplicate_injection_months_last_wins.1 [⟨1, 100, some .cuota⟩]
      ⟨1, 50, some .plazo⟩ 1 rfl,
    (C9_duplicate_injection_months_last_wins.2 [⟨1, 100, some .cuota⟩]
      [⟨1, 100, some .cuota⟩] (fun _ => rfl)).1 1000 12 2 100⟩

end Mortgages

namespace Mortgages

lemma cuota_mensual_exists_ok {c t : ℚ} {p : ℤ} (hp : 0 < p) :
    ∃ q, cuota_mensual c t p = .ok q := by
  unfold cuota_mensual
  rw [if_neg (not_le.2 hp)]
  by_cases hc : c ≤ 0 <;> simp [hc]

lemma buscar_inyeccion_nil (m : ℕ) : buscar_inyeccion [] m = (0, none) := rfl

lemma miLoop_sin_inyecciones (tasa : ℚ) :
    ∀ (fuel mes : ℕ) (cap cuota : ℚ) (pIni : ℤ),
      ∃ L, miLoop tasa [] fuel mes cap cuota pIni none = .ok L ∧
        ∀ r ∈ L, registroMinInv r.capital r.cuota r.intereses r.amortizacion tasa := by
  intro fuel
  induction fuel with
  | zero =>
    intro mes cap cuota pIni
    exact ⟨[], rfl, by simp⟩
  | succ fuel ih =>
    intro mes cap cuota pIni
    by_cases hcap : cap ≤ 0
    · refine ⟨[⟨mes, 0, 0, 0, 0, 0, none⟩], ?_, ?_⟩
      · simp [miLoop, buscar_inyeccion_nil, hcap, tipoOActual]
      · intro r hr
        simp only [List.mem_singleton] at hr
        subst hr
        simp [registroMinInv]
    · obtain ⟨L, hL, hinv⟩ := ih (mes + 1) (cap - min (cuota - intereses_mensuales cap tasa) cap) cuota pIni
      refine ⟨⟨mes, cap, cuota, intereses_mensuales cap tasa,
        min (cuota - intereses_mensuales cap tasa) cap, 0, none⟩ :: L, ?_, ?_⟩
      · simp [miLoop, buscar_inyeccion_nil, hcap, tipoOActual, hL]
      · intro r hr
        rcases List.mem_cons.1 hr with h | h
        · subst h
          simp [registroMinInv, intereses_mensuales]
        · exact hinv r h

end Mortgages

namespace Mortgages

lemma cuota_mensual_error {c t : ℚ} {p : ℤ} {e : Err}
    (h : cuota_mensual c t p = .error e) : e = .plazoNoPositivo := by
  unfold cuota_mensual at h
  split at h
  · exact (Except.error.inj h).symm
  · split at h <;> simp at h

lemma calcular_plazo_error {c t q : ℚ} {e : Err}
    (h : calcular_plazo c t q = .error e) : e = .cuotaNoCubreIntereses := by
  unfold calcular_plazo at h
  split at h
  · simp at h
  · split at h
    · exact (Except.error.inj h).symm
    · simp at h

lemma mcLoop_error_cases {spread : ℚ} {sc : List ℚ} {inys : List Inyeccion}
    {plazoIni : ℤ} :
    ∀ (fuel mes : ℕ) (cap cuota : ℚ) (pr : ℤ) (op : Option Policy) (e : Err),
      mcLoop spread sc inys plazoIni fuel mes cap cuota pr op = .error e →
      e = .plazoNoPositivo ∨ e = .cuotaNoCubreIntereses := by
  intro fuel
  induction fuel with
  | zero => intro mes cap cuota pr op e h; simp [mcLoop] at h
  | succ fuel ih =>
    intro mes cap cuota pr op e h
    simp only [mcLoop] at h
    repeat' first
      | exact Or.inl (cuota_mensual_error h)
      | exact Or.inr (calcular_plazo_error h)
      | exact ih _ _ _ _ _ _ h
      | exact Except.noConfusion h
      | (rcases bind_eq_error.mp h with h | ⟨_, _, h⟩)
      | split at h

lemma mixtaLoop_error_cases {tasaFija spread : ℚ} {sc : List ℚ}
    {inys : List Inyeccion} {plazoIni : ℤ} {mesesFijos : ℕ} :
    ∀ (fuel mes : ℕ) (cap cuota : ℚ) (pr : ℤ) (op : Option Policy) (e : Err),
      mixtaLoop tasaFija spread sc inys plazoIni mesesFijos fuel mes cap cuota pr op =
        .error e →
      e = .plazoNoPositivo ∨ e = .cuotaNoCubreIntereses := by
  intro fuel
  induction fuel with
  | zero => intro mes cap cuota pr op e h; simp [mixtaLoop] at h
  | succ fuel ih =>
    intro mes cap cuota pr op e h
    simp only [mixtaLoop] at h
    repeat' first
      | exact Or.inl (cuota_mensual_error h)
      | exact Or.inr (calcular_plazo_error h)
      | exact ih _ _ _ _ _ _ h
      | exact Except.noConfusion h
      | (rcases bind_eq_error.mp h with h | ⟨_, _, h⟩)
      | split at h

lemma mcLoop_ok_invariante {spread : ℚ} {sc : List ℚ}
    {inys : List Inyeccion} {plazoIni : ℤ} :
    ∀ (fuel mes : ℕ) (cap cuota : ℚ) (pr : ℤ) (op : Option Policy)
      (L : List RegistroMC),
      mcLoop spread sc inys plazoIni fuel mes cap cuota pr op = .ok L →
      ∀ r ∈ L, r.intereses = r.capital * (r.tasaAnual / 1200) ∧
        r.amortizacion = min (r.cuota - r.intereses) r.capital ∧
        0 ≤ r.capital := by
  intro fuel
  induction fuel with
  | zero =>
    intro mes cap cuota pr op L h
    replace h := Except.ok.inj h
    subst h
    intro r hr
    simp at hr
  | succ fuel ih =>
    intro mes cap cuota pr op L h
    simp only [mcLoop] at h
    repeat' first
      | (rw [bind_eq_ok] at h; obtain ⟨_, hmid, h⟩ := h)
      | split at h
    all_goals (replace h := Except.ok.inj h; subst h; intro r hr)
    all_goals first
      | exact absurd hr (List.not_mem_nil r)
      | (rcases List.mem_cons.1 hr with hr1 | hr1
         · subst hr1
           try dsimp only
           refine ⟨?_, ?_, ?_⟩
           · first | rfl | simp [intereses_mensuales]
           · first | rfl | simp
           · first
             | exact le_of_not_le (by assumption : ¬cap ≤ 0)
             | norm_num
         · first
           | exact ih _ _ _ _ _ _ hmid r hr1
           | exact absurd hr1 (List.not_mem_nil r))

lemma mixtaLoop_ok_invariante {tasaFija spread : ℚ} {sc : List ℚ}
    {inys : List Inyeccion} {plazoIni : ℤ} {mesesFijos : ℕ} :
    ∀ (fuel mes : ℕ) (cap cuota : ℚ) (pr : ℤ) (op : Option Policy)
      (L : List RegistroMixta),
      mixtaLoop tasaFija spread sc inys plazoIni mesesFijos fuel mes cap cuota pr op =
        .ok L →
      ∀ r ∈ L, r.intereses = r.capital * (r.tasaAnual / 1200) ∧
        r.amortizacion = min (r.cuota - r.intereses) r.capital ∧
        0 ≤ r.capital := by
  intro fuel
  induction fuel with
  | zero =>
    intro mes cap cuota pr op L h
    replace h := Except.ok.inj h
    subst h
    intro r hr
    simp at hr
  | succ fuel ih =>
    intro mes cap cuota pr op L h
    simp only [mixtaLoop] at h
    repeat' first
      | (rw [bind_eq_ok] at h; obtain ⟨_, hmid, h⟩ := h)
      | split at h
    all_goals (replace h := Except.ok.inj h; subst h; intro r hr)
    all_goals first
      | exact absurd hr (List.not_mem_nil r)
      | (rcases List.mem_cons.1 hr with hr1 | hr1
         · subst hr1
           try dsimp only
           refine ⟨?_, ?_, ?_⟩
           · first | rfl | simp [intereses_mensuales]
           · first | rfl | simp
           · first
             | exact le_of_not_le (by assumption : ¬cap ≤ 0)
             | norm_num
         · first
           | exact ih _ _ _ _ _ _ hmid r hr1
           | exact absurd hr1 (List.not_mem_nil r))

end Mortgages

namespace Mortgages

lemma mcLoop_nil_exists_ok (spread : ℚ) (sc : List ℚ) (plazoIni : ℤ) :
    ∀ (fuel mes : ℕ) (cap cuota : ℚ) (pr : ℤ),
      ∃ L, mcLoop spread sc [] plazoIni fuel mes cap cuota pr none = .ok L := by
  intro fuel
  induction fuel with
  | zero => intro mes cap cuota pr; exact ⟨[], rfl⟩
  | succ fuel ih =>
    intro mes cap cuota pr
    by_cases hg : cap ≤ 0 ∨ pr ≤ 0
    · exact ⟨[], by simp [mcLoop, hg]⟩
    · have hcap : ¬ cap ≤ 0 := fun hc => hg (Or.inl hc)
      have hpr : ¬ pr ≤ 0 := fun hc => hg (Or.inr hc)
      obtain ⟨q, hq⟩ : ∃ q,
          (if mes % 12 = 1 ∧ 1 < mes ∧ 0 < pr then
            cuota_mensual cap (sc[mes - 1]?.getD 0 + spread) pr
          else Except.ok cuota) = .ok q := by
        by_cases ha : mes % 12 = 1 ∧ 1 < mes ∧ 0 < pr
        · rw [if_pos ha]; exact cuota_mensual_exists_ok ha.2.2
        · exact ⟨cuota, by rw [if_neg ha]⟩
      obtain ⟨L, hL⟩ := ih (mes + 1)
        (cap - min (q - intereses_mensuales cap (sc[mes - 1]?.getD 0 + spread)) cap)
        q (pr - 1)
      exact ⟨_, by
        simp [mcLoop, hcap, hpr, hq, buscar_inyeccion_nil, hL]
        try rfl⟩

lemma mixtaLoop_nil_exists_ok (tasaFija spread : ℚ) (sc : List ℚ)
    (plazoIni : ℤ) (mesesFijos : ℕ) :
    ∀ (fuel mes : ℕ) (cap cuota : ℚ) (pr : ℤ),
      ∃ L, mixtaLoop tasaFija spread sc [] plazoIni mesesFijos fuel mes cap cuota pr
        none = .ok L := by
  intro fuel
  induction fuel with
  | zero => intro mes cap cuota pr; exact ⟨[], rfl⟩
  | succ fuel ih =>
    intro mes cap cuota pr
    by_cases hg : cap ≤ 0 ∨ pr ≤ 0
    · exact ⟨[], by simp [mixtaLoop, hg]⟩
    · have hcap : ¬ cap ≤ 0 := fun hc => hg (Or.inl hc)
      have hprne : ¬ pr ≤ 0 := fun hc => hg (Or.inr hc)
      have hpr : 0 < pr := lt_of_not_le hprne
      obtain ⟨q, hq⟩ : ∃ q,
          (if mes ≤ mesesFijos then Except.ok cuota
          else if mes = mesesFijos + 1 then
            cuota_mensual cap
              (if mes ≤ mesesFijos then tasaFija else sc[mes - 1]?.getD 0 + spread) pr
          else if (mes - mesesFijos) % 12 = 1 ∧ mesesFijos + 1 < mes then
            cuota_mensual cap
              (if mes ≤ mesesFijos then tasaFija else sc[mes - 1]?.getD 0 + spread) pr
          else Except.ok cuota) = .ok q := by
        by_cases hf : mes ≤ mesesFijos
        · exact ⟨cuota, by rw [if_pos hf]⟩
        · by_cases ht : mes = mesesFijos + 1
          · rw [if_neg hf, if_pos ht]; exact cuota_mensual_exists_ok hpr
          · by_cases ha : (mes - mesesFijos) % 12 = 1 ∧ mesesFijos + 1 < mes
            · rw [if_neg hf, if_neg ht, if_pos ha]; exact cuota_mensual_exists_ok hpr
            · exact ⟨cuota, by rw [if_neg hf, if_neg ht, if_neg ha]⟩
      obtain ⟨L, hL⟩ := ih (mes + 1)
        (cap - min (q - intereses_mensuales cap
          (if mes ≤ mesesFijos then tasaFija else sc[mes - 1]?.getD 0 + spread)) cap)
        q (pr - 1)
      exact ⟨_, by
        simp [mixtaLoop, hcap, hprne, hq, buscar_inyeccion_nil, hL]
        try rfl⟩

end Mortgages

namespace Mortgages

/-- C1 amended: no recurrence path checks the payment against the month's
interest.  For valid no-injection inputs every path succeeds (nothing raises
PaymentTooLow in the per-month step) and every record's principal portion is
`min(payment - interest, pending)` — which is negative, and silently recorded,
whenever the payment is below the interest (the pending principal then grows
by the shortfall). -/
theorem C1_amended_no_payment_too_low_check :
    (∀ (c t : ℚ) (p : ℤ) (q : ℚ), 0 < c → 0 < p → 0 < q →
      ∃ L, simulacion_hipoteca_multiple_inyeccion c t p q [] = .ok L ∧
        ∀ r ∈ L, r.intereses = r.capital * (t / 1200) ∧
          r.amortizacion = min (r.cuota - r.intereses) r.capital) ∧
    (∀ (c spread : ℚ) (p : ℤ) (e0 : ℚ) (sc0 : List ℚ), 0 < p →
      ∃ L, simulacion_hipoteca_variable_montecarlo c spread p (e0 :: sc0) [] = .ok L ∧
        ∀ r ∈ L, r.intereses = r.capital * (r.tasaAnual / 1200) ∧
          r.amortizacion = min (r.cuota - r.intereses) r.capital) ∧
    (∀ (c tf spread : ℚ) (p : ℤ) (af : ℕ) (sc : List ℚ), 0 < p →
      ∃ L, simulacion_hipoteca_mixta c tf spread p af sc [] = .ok L ∧
        ∀ r ∈ L, r.intereses = r.capital * (r.tasaAnual / 1200) ∧
          r.amortizacion = min (r.cuota - r.intereses) r.capital) := by
  refine ⟨?_, ?_, ?_⟩
  · intro c t p q hc hp hq
    obtain ⟨L, hL, hinv⟩ := miLoop_sin_inyecciones t p.toNat 1 c q p
    refine ⟨L, ?_, ?_⟩
    · rw [simulacion_hipoteca_multiple_inyeccion, if_neg (not_le.2 hc),
        if_neg (not_le.2 hp), if_neg (not_le.2 hq)]
      exact hL
    · intro r hr
      exact hinv r hr
  · intro c spread p e0 sc0 hp
    obtain ⟨q0, hq0⟩ := cuota_mensual_exists_ok (c := c) (t := e0 + spread) hp
    obtain ⟨L, hL⟩ := mcLoop_nil_exists_ok spread (e0 :: sc0) p
      (min p.toNat (e0 :: sc0).length) 1 c q0 p
    refine ⟨L, ?_, ?_⟩
    · rw [simulacion_hipoteca_variable_montecarlo]
      simp only [hq0, ok_bind]
      exact hL
    · intro r hr
      have h := mcLoop_ok_invariante _ _ _ _ _ _ _ hL r hr
      exact ⟨h.1, h.2.1⟩
  · intro c tf spread p af sc hp
    obtain ⟨q0, hq0⟩ := cuota_mensual_exists_ok (c := c) (t := tf) hp
    obtain ⟨L, hL⟩ := mixtaLoop_nil_exists_ok tf spread sc p (af * 12)
      (min p.toNat sc.length) 1 c q0 p
    refine ⟨L, ?_, ?_⟩
    · rw [simulacion_hipoteca_mixta]
      simp only [hq0, ok_bind]
      exact hL
    · intro r hr
      have h := mixtaLoop_ok_invariante _ _ _ _ _ _ _ hL r hr
      exact ⟨h.1, h.2.1⟩

/-- C1 amended witness: each path applied at a small concrete loan. -/
theorem C1_amended_no_payment_too_low_check_witness :
    (∃ L, simulacion_hipoteca_multiple_inyeccion 1000 1200 2 500 [] = .ok L ∧
      ∀ r ∈ L, r.intereses = r.capital * ((1200 : ℚ) / 1200) ∧
        r.amortizacion = min (r.cuota - r.intereses) r.capital) ∧
    (∃ L, simulacion_hipoteca_variable_montecarlo 100 0 1 [0] [] = .ok L ∧
      ∀ r ∈ L, r.intereses = r.capital * (r.tasaAnual / 1200) ∧
        r.amortizacion = min (r.cuota - r.intereses) r.capital) ∧
    (∃ L, simulacion_hipoteca_mixta 100 0 0 1 0 [0] [] = .ok L ∧
      ∀ r ∈ L, r.intereses = r.capital * (r.tasaAnual / 1200) ∧
        r.amortizacion = min (r.cuota - r.intereses) r.capital) :=
  ⟨C1_amended_no_payment_too_low_check.1 1000 1200 2 500
      (by norm_num) (by norm_num) (by norm_num),
    C1_amended_no_payment_too_low_check.2.1 100 0 1 0 [] (by norm_num),
    C1_amended_no_payment_too_low_check.2.2 100 0 0 1 0 [0] (by norm_num)⟩

/-- C2 amended: the variable Monte-Carlo and mixed paths clamp an over-large
injection to the pending principal and continue (they can never raise the
injection-exceeds-principal error, and no recorded pending principal is ever
negative); the fixed multiple-injection path instead aborts with that hard
error, e.g. whenever the month-1 injection exceeds the initial principal. -/
theorem C2_amended_injection_clamping :
    (∀ (c spread : ℚ) (p : ℤ) (sc : List ℚ) (inys : List Inyeccion),
      simulacion_hipoteca_variable_montecarlo c spread p sc inys ≠
        .error .inyeccionSuperaCapital) ∧
    (∀ (c tf spread : ℚ) (p : ℤ) (af : ℕ) (sc : List ℚ) (inys : List Inyeccion),
      simulacion_hipoteca_mixta c tf spread p af sc inys ≠
        .error .inyeccionSuperaCapital) ∧
    (∀ (c spread : ℚ) (p : ℤ) (sc : List ℚ) (inys : List Inyeccion)
      (L : List RegistroMC),
      simulacion_hipoteca_variable_montecarlo c spread p sc inys = .ok L →
      ∀ r ∈ L, 0 ≤ r.capital) ∧
    (∀ (c tf spread : ℚ) (p : ℤ) (af : ℕ) (sc : List ℚ) (inys : List Inyeccion)
      (L : List RegistroMixta),
      simulacion_hipoteca_mixta c tf spread p af sc inys = .ok L →
      ∀ r ∈ L, 0 ≤ r.capital) ∧
    (∀ (c t : ℚ) (p : ℤ) (q : ℚ) (inys : List Inyeccion),
      0 < c → 0 < p → 0 < q → c < (buscar_inyeccion inys 1).1 →
      simulacion_hipoteca_multiple_inyeccion c t p q inys =
        .error .inyeccionSuperaCapital) := by
  refine ⟨?_, ?_, ?_, ?_, ?_⟩
  · intro c spread p sc inys h
    cases sc with
    | nil => simp [simulacion_hipoteca_variable_montecarlo] at h
    | cons e0 sc0 =>
      rw [simulacion_hipoteca_variable_montecarlo] at h
      rcases bind_eq_error.mp h with h | ⟨q0, hq0, h⟩
      · exact absurd (cuota_mensual_error h) (by simp)
      · rcases mcLoop_error_cases _ _ _ _ _ _ _ h with h1 | h1 <;> simp at h1
  · intro c tf spread p af sc inys h
    rw [simulacion_hipoteca_mixta] at h
    rcases bind_eq_error.mp h with h | ⟨q0, hq0, h⟩
    · exact absurd (cuota_mensual_error h) (by simp)
    · rcases mixtaLoop_error_cases _ _ _ _ _ _ _ h with h1 | h1 <;> simp at h1
  · intro c spread p sc inys L h
    cases sc with
    | nil => simp [simulacion_hipoteca_variable_montecarlo] at h
    | cons e0 sc0 =>
      rw [simulacion_hipoteca_variable_montecarlo] at h
      rcases bind_eq_ok.mp h with ⟨q0, hq0, h⟩
      intro r hr
      exact (mcLoop_ok_invariante _ _ _ _ _ _ _ h r hr).2.2
  · intro c tf spread p af sc inys L h
    rw [simulacion_hipoteca_mixta] at h
    rcases bind_eq_ok.mp h with ⟨q0, hq0, h⟩
    intro r hr
    exact (mixtaLoop_ok_invariante _ _ _ _ _ _ _ h r hr).2.2
  · intro c t p q inys hc hp hq hb
    rw [simulacion_hipoteca_multiple_inyeccion, if_neg (not_le.2 hc),
      if_neg (not_le.2 hp), if_neg (not_le.2 hq)]
    obtain ⟨k, hk⟩ : ∃ k, p.toNat = k + 1 := ⟨p.toNat - 1, by omega⟩
    rw [hk]
    simp only [miLoop]
    rw [if_pos (lt_trans hc hb), if_pos hb]
    rfl

/-- C2 amended witness: a 2000 injection against 1000 pending is clamped and
the run closes at month 1 in the variable and mixed paths, while the fixed
path aborts. -/
theorem C2_amended_injection_clamping_witness :
    (simulacion_hipoteca_variable_montecarlo 1000 0 12 [0] [⟨1, 2000, some .cuota⟩] ≠
      .error .inyeccionSuperaCapital) ∧
    (simulacion_hipoteca_mixta 1000 1 0 12 1 [0] [⟨1, 2000, some .cuota⟩] ≠
      .error .inyeccionSuperaCapital) ∧
    ((1000 : ℚ) < 2000 ∧
      simulacion_hipoteca_multiple_inyeccion 1000 12 1 100 [⟨1, 2000, some .cuota⟩] =
        .error .inyeccionSuperaCapital) :=
  ⟨C2_amended_injection_clamping.1 1000 0 12 [0] [⟨1, 2000, some .cuota⟩],
    C2_amended_injection_clamping.2.1 1000 1 0 12 1 [0] [⟨1, 2000, some .cuota⟩],
    by norm_num [buscar_inyeccion],
    C2_amended_injection_clamping.2.2.2.2 1000 12 1 100 [⟨1, 2000, some .cuota⟩]
      (by norm_num) (by norm_num) (by norm_num)
      (by norm_num [buscar_inyeccion])⟩

end Mortgages

namespace Mortgages

lemma caminoConSuelo_length (step : ℚ → ℕ → ℚ) :
    ∀ (n : ℕ) (cur : ℚ) (k : ℕ), (caminoConSuelo step n cur k).length = n := by
  intro n
  induction n with
  | zero => intro cur k; rfl
  | succ n ih => intro cur k; simp [caminoConSuelo, ih]

lemma caminoConSuelo_floor (step : ℚ → ℕ → ℚ) :
    ∀ (n : ℕ) (cur : ℚ) (k : ℕ), ∀ x ∈ caminoConSuelo step n cur k, -1 ≤ x := by
  intro n
  induction n with
  | zero => intro cur k x hx; simp [caminoConSuelo] at hx
  | succ n ih =>
    intro cur k x hx
    rcases List.mem_cons.1 hx with h | h
    · subst h; exact le_max_right _ _
    · exact ih _ _ x h

/-- C3 counterexample: with the Constant model and initial rate -2, the path
contains the value -2, which is below the -1.0 floor — the Constant branch
repeats the initial rate without applying the floor. -/
theorem C3_counterexample_constant_no_floor :
    (-2 : ℚ) ∈ generate_euribor_scenario (-2) 1 .constant ⟨0, 0, 0⟩ (fun _ => 0) ∧
    (-2 : ℚ) < -1 := by
  constructor
  · simp [generate_euribor_scenario, List.mem_replicate]
  · norm_num

/-- C3 amended: every model produces a path of length exactly
`plazoAnos * 12` for every parameterization and every sequence of draws; the
three stochastic models floor every element at -1.0; the Constant model
instead returns the initial rate repeated, unfloored (so its elements are
below -1.0 exactly when the initial rate is). -/
theorem C3_amended_scenario_length_and_floor (initial : ℚ) (y : ℕ)
    (dist : DistType) (params : DistParams) (draws : ℕ → ℚ) :
    (generate_euribor_scenario initial y dist params draws).length = y * 12 ∧
    (dist ≠ .constant →
      ∀ x ∈ generate_euribor_scenario initial y dist params draws, -1 ≤ x) ∧
    generate_euribor_scenario initial y .constant params draws =
      List.replicate (y * 12) initial := by
  refine ⟨?_, ?_, rfl⟩
  · cases dist <;>
      simp [generate_euribor_scenario, caminoConSuelo_length]
  · intro hdist x hx
    cases dist with
    | constant => exact absurd rfl hdist
    | gaussian => exact caminoConSuelo_floor _ _ _ _ x hx
    | meanReverting => exact caminoConSuelo_floor _ _ _ _ x hx
    | uniformRandomWalk => exact caminoConSuelo_floor _ _ _ _ x hx

/-- C3 amended witness: a Gaussian path of one year with all draws equal to
-5 has 12 elements, all floored at -1. -/
theorem C3_amended_scenario_length_and_floor_witness :
    (generate_euribor_scenario 0 1 .gaussian ⟨0, 0, 0⟩ (fun _ => -5)).length = 12 ∧
    (∀ x ∈ generate_euribor_scenario 0 1 .gaussian ⟨0, 0, 0⟩ (fun _ => -5), (-1 : ℚ) ≤ x) ∧
    generate_euribor_scenario 0 1 .constant ⟨0, 0, 0⟩ (fun _ => -5) =
      List.replicate 12 0 :=
  ⟨(C3_amended_scenario_length_and_floor 0 1 .gaussian ⟨0, 0, 0⟩ (fun _ => -5)).1,
    (C3_amended_scenario_length_and_floor 0 1 .gaussian ⟨0, 0, 0⟩ (fun _ => -5)).2.1
      (by decide),
    (C3_amended_scenario_length_and_floor 0 1 .constant ⟨0, 0, 0⟩ (fun _ => -5)).2.2⟩

end Mortgages

namespace Mortgages

lemma sqrt2_bounds : (1.41 : ℝ) < Real.sqrt 2 ∧ Real.sqrt 2 < 1.415 := by
  have hs : (0:ℝ) ≤ Real.sqrt 2 := Real.sqrt_nonneg 2
  have hs2 : Real.sqrt 2 ^ 2 = 2 := Real.sq_sqrt (by norm_num)
  constructor
  · nlinarith [hs, hs2]
  · nlinarith [hs, hs2]

lemma round2r_sqrt2 : round2r (Real.sqrt ((2 : ℚ) : ℝ)) = 141 / 100 := by
  have hcast : ((2 : ℚ) : ℝ) = (2 : ℝ) := by norm_num
  rw [hcast]
  obtain ⟨hlb, hub⟩ := sqrt2_bounds
  have hfloor : ⌊(Real.sqrt 2 * 100 : ℝ)⌋ = 141 := by
    rw [Int.floor_eq_iff]
    constructor
    · push_cast; nlinarith
    · push_cast; nlinarith
  have hs2 : Real.sqrt 2 ^ 2 = 2 := Real.sq_sqrt (by norm_num)
  have hfract : Int.fract (Real.sqrt 2 * 100) ≠ 1 / 2 := by
    intro h
    rw [Int.fract, hfloor] at h
    have heq : Real.sqrt 2 * 100 = 283 / 2 := by push_cast at h; linarith
    nlinarith [hs2, heq]
  have hround : round (Real.sqrt 2 * 100) = 141 := by
    rw [round_eq, Int.floor_eq_iff]
    constructor
    · push_cast; nlinarith
    · push_cast; nlinarith
  rw [round2r, bankersRoundR, if_neg hfract, hround]
  norm_num

lemma round2r_one : round2r (1 : ℝ) = 1 := by
  have hcast : (1 : ℝ) * 100 = ((100 : ℤ) : ℝ) := by norm_num
  rw [round2r, bankersRoundR, hcast, Int.fract_intCast, round_intCast]
  norm_num

end Mortgages

namespace Mortgages

/-- C8 counterexample: for the two-run ensemble with month-1 payments 1 and
3, the aggregated std cell is `round2(sqrt 2)` (sample std, divisor N-1),
which differs from the rounded population standard deviation
`round2(sqrt(popVar)) = 1`: the aggregation does not compute the population
standard deviation. -/
theorem C8_counterexample_sample_not_population_std :
    calculate_simulation_statistics
        [⟨1, 0, 0, 0, 1, 0, 0, 0⟩, ⟨1, 0, 0, 0, 3, 0, 0, 0⟩] =
      [(1, colStats [1, 3], colStats [0, 0], colStats [0, 0], colStats [0, 0])] ∧
    (colStats [1, 3]).std ≠ round2r (Real.sqrt ((popVarQ [1, 3] : ℚ) : ℝ)) := by
  constructor
  · rfl
  · have hsv : sampleVarQ [1, 3] = 2 := by
      norm_num [sampleVarQ, meanQ]
    have hpv : popVarQ [1, 3] = 1 := by
      norm_num [popVarQ, meanQ]
    rw [show (colStats [1, 3]).std = round2r (Real.sqrt ((sampleVarQ [1, 3] : ℚ) : ℝ))
      from rfl, hsv, hpv, round2r_sqrt2,
      show Real.sqrt ((1 : ℚ) : ℝ) = 1 by
        rw [show ((1 : ℚ) : ℝ) = 1 by norm_num, Real.sqrt_one],
      round2r_one]
    norm_num

end Mortgages

namespace Mortgages

lemma map_fst_graph {α β : Type} (f : α → β) (l : List α) :
    (l.map (fun m => (m, f m))).map Prod.fst = l := by
  induction l with
  | nil => rfl
  | cons a t ih => simp [ih]

/-- C8 amended: the ensemble aggregation groups all runs' month records by
month number (keys are exactly the months present, in ascending order, and
each group is the flat frame filtered to that month); per numeric column
(payment, interest, principal, rate) it computes the mean, the SAMPLE
standard deviation (divisor N-1, the pandas default — not the population
one), the 5th percentile and the 95th percentile, each rounded to two
decimals. -/
theorem C8_amended_ensemble_aggregation (flat : List RegistroMC) :
    ((calculate_simulation_statistics flat).map Prod.fst).Sorted (· ≤ ·) ∧
    (∀ m : ℕ, m ∈ (calculate_simulation_statistics flat).map Prod.fst ↔
      ∃ r ∈ flat, r.mes = m) ∧
    calculate_simulation_statistics flat =
      (mesesOrdenados flat).map (fun m =>
        (m,
          colStats ((flat.filter (fun r => r.mes = m)).map (·.cuota)),
          colStats ((flat.filter (fun r => r.mes = m)).map (·.intereses)),
          colStats ((flat.filter (fun r => r.mes = m)).map (·.amortizacion)),
          colStats ((flat.filter (fun r => r.mes = m)).map (·.euribor)))) ∧
    (∀ l : List ℚ, colStats l =
      ⟨round2q (l.sum / l.length),
        round2r (Real.sqrt
          (((l.map (fun x => (x - l.sum / l.length) ^ 2)).sum /
            ((l.length : ℚ) - 1) : ℚ) : ℝ)),
        round2q (percentileQ l 5), round2q (percentileQ l 95)⟩) := by
  have hkeys : (calculate_simulation_statistics flat).map Prod.fst =
      mesesOrdenados flat := map_fst_graph _ _
  refine ⟨?_, ?_, rfl, fun l => rfl⟩
  · rw [hkeys]
    exact List.sorted_insertionSort _ _
  · intro m
    rw [hkeys, mesesOrdenados,
      List.Perm.mem_iff (List.perm_insertionSort _ _), List.mem_dedup,
      List.mem_map]

end Mortgages

namespace Mortgages

lemma mcLoop_mes_bounds {spread : ℚ} {sc : List ℚ} {inys : List Inyeccion}
    {plazoIni : ℤ} :
    ∀ (fuel mes : ℕ) (cap cuota : ℚ) (pr : ℤ) (op : Option Policy)
      (L : List RegistroMC),
      mcLoop spread sc inys plazoIni fuel mes cap cuota pr op = .ok L →
      (∀ r ∈ L, mes ≤ r.mes) ∧ L.Pairwise (fun a b => a.mes < b.mes) := by
  intro fuel
  induction fuel with
  | zero =>
    intro mes cap cuota pr op L h
    replace h := Except.ok.inj h
    subst h
    exact ⟨by simp, by simp⟩
  | succ fuel ih =>
    intro mes cap cuota pr op L h
    simp only [mcLoop] at h
    repeat' first
      | (rw [bind_eq_ok] at h; obtain ⟨_, hmid, h⟩ := h)
      | split at h
    all_goals (replace h := Except.ok.inj h; subst h)
    all_goals first
      | (refine ⟨?_, ?_⟩ <;> simp <;> done)
      | (obtain ⟨hlb, hpw⟩ := ih _ _ _ _ _ _ hmid
         refine ⟨?_, ?_⟩
         · intro r hr
           rcases List.mem_cons.1 hr with hr1 | hr1
           · subst hr1
             try dsimp only
             omega
           · have hr2 := hlb r hr1
             omega
         · refine List.Pairwise.cons ?_ hpw
           intro b hb
           have hb2 := hlb b hb
           try dsimp only
           omega)

end Mortgages

namespace Mortgages

lemma sim_mc_pairwise {c spread : ℚ} {p : ℤ} {sc : List ℚ}
    {inys : List Inyeccion} {s : List RegistroMC}
    (h : simulacion_hipoteca_variable_montecarlo c spread p sc inys = .ok s) :
    s.Pairwise (fun a b => a.mes < b.mes) := by
  cases sc with
  | nil => simp [simulacion_hipoteca_variable_montecarlo] at h
  | cons e0 sc0 =>
    rw [simulacion_hipoteca_variable_montecarlo] at h
    rcases bind_eq_ok.mp h with ⟨q0, hq0, h⟩
    exact (mcLoop_mes_bounds _ _ _ _ _ _ _ h).2

lemma sampleVarQ_of_const {l : List ℚ} (h : ∀ x ∈ l, ∀ y ∈ l, x = y) :
    sampleVarQ l = 0 := by
  cases l with
  | nil => simp [sampleVarQ, meanQ]
  | cons a t =>
    have hall : ∀ x ∈ a :: t, x = a :=
      fun x hx => h x hx a (List.mem_cons_self a t)
    have hsum : (a :: t).sum = (a :: t).length • a :=
      List.sum_eq_card_nsmul _ a hall
    have hlen : ((a :: t).length : ℚ) ≠ 0 :=
      Nat.cast_ne_zero.2 (Nat.succ_ne_zero t.length)
    have hmean : meanQ (a :: t) = a := by
      rw [meanQ, hsum, nsmul_eq_mul, mul_comm, mul_div_assoc, div_self hlen,
        mul_one]
    have hmap : ((a :: t).map (fun x => (x - meanQ (a :: t)) ^ 2)).sum = 0 := by
      apply List.sum_eq_zero
      intro y hy
      rcases List.mem_map.1 hy with ⟨x, hx, rfl⟩
      rw [hmean, hall x hx]
      ring
    rw [sampleVarQ, hmap, zero_div]

lemma round2r_zero : round2r (0 : ℝ) = 0 := by
  have hcast : (0 : ℝ) * 100 = ((0 : ℤ) : ℝ) := by norm_num
  rw [round2r, bankersRoundR, hcast, Int.fract_intCast, round_intCast]
  norm_num

lemma colStats_std_zero {l : List ℚ} (h : ∀ x ∈ l, ∀ y ∈ l, x = y) :
    (colStats l).std = 0 := by
  have hv := sampleVarQ_of_const h
  rw [show (colStats l).std = round2r (Real.sqrt ((sampleVarQ l : ℚ) : ℝ)) from rfl,
    hv]
  rw [show ((0 : ℚ) : ℝ) = 0 by norm_num, Real.sqrt_zero, round2r_zero]

lemma mcRuns_constant_ok {c spread : ℚ} {y : ℕ} {init : ℚ} {params : DistParams}
    {inys : List Inyeccion} {draws : ℕ → ℕ → ℚ} {s : List RegistroMC}
    (hs : simulacion_hipoteca_variable_montecarlo c spread (y * 12)
      (List.replicate (y * 12) init) inys = .ok s) :
    ∀ (n i : ℕ),
      mcRuns c spread y init .constant params inys draws n i =
        .ok ((List.range' i n).map (fun j => (j, s))) := by
  intro n
  induction n with
  | zero => intro i; rfl
  | succ n ih =>
    intro i
    rw [mcRuns]
    simp only [generate_euribor_scenario, hs, ok_bind, ih, List.range', List.map]
    rfl

end Mortgages

namespace Mortgages

lemma mcRuns_constant_indep {c spread : ℚ} {y : ℕ} {init : ℚ}
    {params : DistParams} {inys : List Inyeccion} {draws draws' : ℕ → ℕ → ℚ} :
    ∀ (n i : ℕ),
      mcRuns c spread y init .constant params inys draws n i =
        mcRuns c spread y init .constant params inys draws' n i := by
  intro n
  induction n with
  | zero => intro i; rfl
  | succ n ih =>
    intro i
    rw [mcRuns, mcRuns]
    simp only [generate_euribor_scenario, ih]

lemma all_eq_of_pairwise_lt {l : List RegistroMC} {m : ℕ}
    (hp : l.Pairwise (fun a b => a.mes < b.mes)) (hm : ∀ x ∈ l, x.mes = m) :
    ∀ x ∈ l, ∀ y ∈ l, x = y := by
  cases l with
  | nil => simp
  | cons a tl =>
    cases tl with
    | nil =>
      intro x hx y hy
      simp at hx hy
      rw [hx, hy]
    | cons b t2 =>
      exfalso
      have hab : a.mes < b.mes :=
        (List.pairwise_cons.1 hp).1 b (List.mem_cons_self b t2)
      have ha := hm a (by simp)
      have hb := hm b (by simp)
      omega

lemma map_all_eq {l : List RegistroMC} (h : ∀ x ∈ l, ∀ y ∈ l, x = y)
    (f : RegistroMC → ℚ) : ∀ u ∈ l.map f, ∀ v ∈ l.map f, u = v := by
  intro u hu v hv
  rcases List.mem_map.1 hu with ⟨x, hx, rfl⟩
  rcases List.mem_map.1 hv with ⟨y, hy, rfl⟩
  rw [h x hx y hy]

/-- C7: with the Constant model the scenario generator is deterministic — it
ignores the random draws entirely and returns the initial rate repeated —
so the whole Monte-Carlo ensemble is independent of the random state, all
trials produce identical schedules, and every per-month std statistic of the
ensemble is exactly 0. -/
theorem C7_constant_model_deterministic (c spread : ℚ) (y : ℕ) (init : ℚ)
    (params : DistParams) (N : ℕ) (inys : List Inyeccion)
    (draws draws' : ℕ → ℕ → ℚ) :
    generate_euribor_scenario init y .constant params (draws 0) =
      List.replicate (y * 12) init ∧
    run_monte_carlo_simulation c spread y init .constant params N inys draws =
      run_monte_carlo_simulation c spread y init .constant params N inys draws' ∧
    (∀ rs, run_monte_carlo_simulation c spread y init .constant params N inys
        draws = .ok rs →
      (∀ a ∈ rs, ∀ b ∈ rs, a.2 = b.2) ∧
      (∀ row ∈ calculate_simulation_statistics (flattenRuns rs),
        row.2.1.std = 0 ∧ row.2.2.1.std = 0 ∧ row.2.2.2.1.std = 0 ∧
          row.2.2.2.2.std = 0)) := by
  refine ⟨rfl, mcRuns_constant_indep N 0, ?_⟩
  intro rs h
  rw [run_monte_carlo_simulation] at h
  cases hsim : simulacion_hipoteca_variable_montecarlo c spread (y * 12)
      (List.replicate (y * 12) init) inys with
  | error e =>
    cases N with
    | zero =>
      replace h := Except.ok.inj h
      subst h
      refine ⟨by simp, ?_⟩
      intro row hrow
      simp [flattenRuns, calculate_simulation_statistics, mesesOrdenados] at hrow
    | succ n =>
      rw [mcRuns] at h
      simp only [generate_euribor_scenario, hsim, error_bind] at h
      exact Except.noConfusion h
  | ok s =>
    rw [mcRuns_constant_ok hsim N 0] at h
    replace h := Except.ok.inj h
    subst h
    have hsnd : ∀ a ∈ (List.range' 0 N).map (fun j => (j, s)), a.2 = s := by
      intro a ha
      rcases List.mem_map.1 ha with ⟨j, _, rfl⟩
      rfl
    refine ⟨?_, ?_⟩
    · intro a ha b hb
      rw [hsnd a ha, hsnd b hb]
    · intro row hrow
      have hmem_s : ∀ x ∈ flattenRuns ((List.range' 0 N).map (fun j => (j, s))),
          x ∈ s := by
        intro x hx
        rw [flattenRuns] at hx
        rcases List.mem_flatten.1 hx with ⟨l, hl, hxl⟩
        rcases List.mem_map.1 hl with ⟨p, hp, rfl⟩
        rcases List.mem_map.1 hp with ⟨j, _, rfl⟩
        exact hxl
      have hpair := sim_mc_pairwise hsim
      rcases List.mem_map.1 hrow with ⟨m, hm, rfl⟩
      have hone : ∀ x ∈ (flattenRuns ((List.range' 0 N).map (fun j => (j, s)))).filter
            (fun r => r.mes = m),
          ∀ y ∈ (flattenRuns ((List.range' 0 N).map (fun j => (j, s)))).filter
            (fun r => r.mes = m), x = y := by
        have hsub : ∀ x ∈ (flattenRuns ((List.range' 0 N).map (fun j => (j, s)))).filter
              (fun r => r.mes = m), x ∈ s.filter (fun r => r.mes = m) := by
          intro x hx
          rw [List.mem_filter] at hx ⊢
          exact ⟨hmem_s x hx.1, hx.2⟩
        have hps : (s.filter (fun r => r.mes = m)).Pairwise
            (fun a b => a.mes < b.mes) := hpair.sublist (List.filter_sublist s)
        have hallm : ∀ x ∈ s.filter (fun r => r.mes = m), x.mes = m := by
          intro x hx
          rw [List.mem_filter] at hx
          simpa using hx.2
        intro x hx y hy
        exact all_eq_of_pairwise_lt hps hallm x (hsub x hx) y (hsub y hy)
      refine ⟨?_, ?_, ?_, ?_⟩ <;>
        exact colStats_std_zero (map_all_eq hone _)

end Mortgages

namespace Mortgages

theorem C7_constant_model_deterministic_witness :
    run_monte_carlo_simulation 100 0 1 1 .constant ⟨0, 0, 0⟩ 2 [⟨1, 100, none⟩]
        (fun _ _ => 0) =
      .ok [(0, [⟨1, 1, 1, 0, 0, 0, 0, 100⟩]), (1, [⟨1, 1, 1, 0, 0, 0, 0, 100⟩])] ∧
    (∀ a ∈ [((0 : ℕ), [(⟨1, 1, 1, 0, 0, 0, 0, 100⟩ : RegistroMC)]),
        (1, [⟨1, 1, 1, 0, 0, 0, 0, 100⟩])],
      ∀ b ∈ [((0 : ℕ), [(⟨1, 1, 1, 0, 0, 0, 0, 100⟩ : RegistroMC)]),
        (1, [⟨1, 1, 1, 0, 0, 0, 0, 100⟩])], a.2 = b.2) ∧
    (∀ row ∈ calculate_simulation_statistics (flattenRuns
        [((0 : ℕ), [(⟨1, 1, 1, 0, 0, 0, 0, 100⟩ : RegistroMC)]),
          (1, [⟨1, 1, 1, 0, 0, 0, 0, 100⟩])]),
      row.2.1.std = 0 ∧ row.2.2.1.std = 0 ∧ row.2.2.2.1.std = 0 ∧
        row.2.2.2.2.std = 0) := by
  have hsim : simulacion_hipoteca_variable_montecarlo 100 0 (((1 : ℕ) : ℤ) * 12)
      (List.replicate ((1 : ℕ) * 12) (1 : ℚ)) [⟨1, 100, none⟩] =
      .ok [⟨1, 1, 1, 0, 0, 0, 0, 100⟩] := by
    have hrep : List.replicate ((1 : ℕ) * 12) (1 : ℚ) = 1 :: List.replicate 11 1 := rfl
    rw [hrep, simulacion_hipoteca_variable_montecarlo]
    rw [show cuota_mensual 100 (1 + 0) (((1 : ℕ) : ℤ) * 12) =
      .ok (cuotaVal 100 (1 + 0) (((1 : ℕ) : ℤ) * 12)) by norm_num [cuota_mensual]]
    rw [ok_bind]
    rw [show min ((((1 : ℕ) : ℤ) * 12).toNat) (1 :: List.replicate 11 (1 : ℚ)).length =
      11 + 1 from rfl]
    rw [mcLoop]
    norm_num [buscar_inyeccion, intereses_mensuales, min_def, List.getD,
      List.foldl, tipoOActual]
  have hrun : run_monte_carlo_simulation 100 0 1 1 .constant ⟨0, 0, 0⟩ 2
      [⟨1, 100, none⟩] (fun _ _ => 0) =
      .ok [(0, [⟨1, 1, 1, 0, 0, 0, 0, 100⟩]), (1, [⟨1, 1, 1, 0, 0, 0, 0, 100⟩])] := by
    rw [run_monte_carlo_simulation, mcRuns_constant_ok hsim 2 0]
    rfl
  exact ⟨hrun,
    (C7_constant_model_deterministic 100 0 1 1 ⟨0, 0, 0⟩ 2 [⟨1, 100, none⟩]
      (fun _ _ => 0) (fun _ _ => 0)).2.2 _ hrun⟩

end Mortgages
